import Mathlib

/-!
Verification development for tsfc/fem.py: lowering of finite-element form
integrands into the GEM intermediate representation.  Numeric tables are
modelled over the rationals; fallible code (Python assertions, KeyError,
NotImplementedError) is modelled with Except.
-/

namespace Tsfc

/-- A 1-D table row: values per basis function. -/
abbrev Row := List ℚ

/-- A 2-D table: quadrature point by basis function. -/
abbrev Mat := List Row

/-- Modelled from the spec: the rounding tolerance `epsilon` (fem.py line 28)
is derived from the global numeric precision constant PRECISION in
tsfc/constants.py, which is not under src/; the spec says it is one decimal
digit looser than the configured display precision of double floats, giving
ten to the minus fourteen. -/
def epsilon : ℚ := 1 / 10 ^ 14

/-- One masked assignment of the FFC rounding loop (fem.py lines 61-65):
entries within `eps` of `target` are set to `target` exactly. -/
def snapTo (eps target x : ℚ) : ℚ := if |x - target| < eps then target else x

/-- The FFC round-off snap applied to one entry (fem.py lines 61-65):
snap to 0, then 1, then -1, then 1/2, then -1/2, each mask being computed
on the currently updated value, as numpy does with in-place masked writes. -/
def snapValue (eps x : ℚ) : ℚ :=
  snapTo eps (-(1/2)) (snapTo eps (1/2) (snapTo eps (-1) (snapTo eps 1 (snapTo eps 0 x))))

/-- Entrywise snap of a table row. -/
def snapRow (eps : ℚ) (r : Row) : Row := r.map (snapValue eps)

/-- Entrywise snap of a 2-D table (fem.py lines 61-65). -/
def snapMat (eps : ℚ) (m : Mat) : Mat := m.map (snapRow eps)

/-- Python list building with exception propagation: the effectful analogue
of a for loop appending f of each element, as in fem.py loops whose bodies
may raise. -/
def mapME {α β : Type} (f : α → Except String β) : List α → Except String (List β)
  | [] => .ok []
  | a :: l =>
    match f a with
    | .error e => .error e
    | .ok b =>
      match mapME f l with
      | .error e => .error e
      | .ok bs => .ok (b :: bs)

/-- Option-valued traversal of a list, used to test whether every element
satisfies a partial projection. -/
def mapMO {α β : Type} (f : α → Option β) : List α → Option (List β)
  | [] => some []
  | a :: l =>
    match f a with
    | Option.none => Option.none
    | some b =>
      match mapMO f l with
      | Option.none => Option.none
      | some bs => some (b :: bs)

/-- Python fold with exception propagation: a for loop threading state whose
body may raise. -/
def foldME {σ α : Type} (f : σ → α → Except String σ) : σ → List α → Except String σ
  | s, [] => .ok s
  | s, a :: l =>
    match f s a with
    | .error e => .error e
    | .ok t => foldME f t l

/-- Modelled from the spec: compat.allclose (tsfc/compat.py, not under src/)
is numpy.allclose with the numpy default relative tolerance. -/
def rtol : ℚ := 1 / 10 ^ 5

/-- Modelled from the spec: the numpy default absolute tolerance used by
compat.allclose. -/
def atol : ℚ := 1 / 10 ^ 8

/-- One entry comparison of numpy.allclose: within atol plus rtol times the
magnitude of the reference entry; equal_nan is irrelevant over the
rationals. -/
def closeTo (a b : ℚ) : Bool := decide (|a - b| ≤ atol + rtol * |b|)

/-- Row versus (broadcast) row comparison of numpy.allclose. -/
def allcloseRow (a b : Row) : Bool :=
  decide (a.length = b.length) && (a.zip b).all fun p => closeTo p.1 p.2

/-- table.mean(axis=0, keepdims=True): the pointwise mean row of a table. -/
def meanRow (m : Mat) : Row :=
  (List.range (m.headD []).length).map fun j =>
    (m.map fun r => r.getD j 0).sum / (m.length : ℚ)

/-- compat.allclose(table, table.mean(axis=0, keepdims=True)): every row is
mean-equal within tolerance. -/
def allcloseMean (m : Mat) : Bool := m.all fun r => allcloseRow r (meanRow m)

/-- A per-tabulator table after fem.py tabulate: either the full 2-D table or
a single representative row declared cellwise constant. -/
inductive Table where
  | full (m : Mat)
  | const (r : Row)
deriving DecidableEq

/-- A table as stored by the TabulationManager: 1-D (facetwise and cellwise
constant), 2-D (cell integral), or 3-D (per-facet stack). -/
inductive StoredTable where
  | one (r : Row)
  | two (m : Mat)
  | three (c : List Mat)
deriving DecidableEq

/-- fem.py tabulate (lines 55-71) for a single (c, D, table) item: snap the
raw table; if the element's spanning degree bound (spanning_degree, a
collaborator from tsfc.ufl_utils, passed here as deg) is at or below the
total derivative order, check that all rows are mean-equal within tolerance
(a failed check is a fatal Python assertion) and collapse the table to its
first row. -/
def tabulateStep (deg : ℕ) (D : List ℕ) (tbl : Mat) : Except String Table :=
  let t := snapMat epsilon tbl
  if deg ≤ D.sum then
    if allcloseMean t then .ok (.const (t.headD []))
    else .error "assertion failed: cellwise constant table"
  else .ok (.full t)

/-- Projection used to model the numpy.array stacking dimension test. -/
def constRow? : Table → Option Row
  | .const r => some r
  | .full _ => Option.none

/-- Fallback flattening of a per-facet table list for the mixed case, which
cannot arise for a single tabulation key. -/
def Table.toMat : Table → Mat
  | .full m => m
  | .const r => [r]

/-- fem.py TabulationManager.tabulate (lines 134-140): stack one key's tables
across facets; when the stack is 2-D (each per-facet table was collapsed to
one row) assert that the rows agree across facets within tolerance and keep
only the first row.  Rows of unequal length cannot arise for a single key
(same element and point count on every facet). -/
def stackTables (ts : List Table) : Except String StoredTable :=
  match mapMO constRow? ts with
  | some rows =>
    if rows.isEmpty then .ok (.three [])
    else if allcloseMean rows then .ok (.one (rows.headD []))
    else .error "assertion failed: facetwise constant table"
  | Option.none => .ok (.three (ts.map Table.toMat))

/-- The processing of one (component, derivative) key of a facet integral:
per-facet tabulate followed by the cross-facet stacking of
TabulationManager.tabulate. -/
def facetTabulateKey (deg : ℕ) (D : List ℕ) (mats : List Mat) : Except String StoredTable :=
  match mapME (tabulateStep deg D) mats with
  | .error e => .error e
  | .ok ts => stackTables ts

/-- fem.py iterate_shape, inner helper flat_index (lines 217-218): convert an
ordered derivative sequence into the canonical derivative multi-index by
counting, for each spatial dimension d below dim, the occurrences of d. -/
def flat_index (dim : ℕ) (ordered_deriv : List ℕ) : List ℕ :=
  (List.range dim).map fun d => ordered_deriv.count d

/-- itertools.product over a fixed list with the given repeat count, in
itertools order: the leftmost position varies slowest.  Used for the
ordered derivative sequences (fem.py line 220) and for the restriction
combinations (fem.py line 333). -/
def prodRep {α : Type} (xs : List α) : ℕ → List (List α)
  | 0 => [[]]
  | n + 1 => xs.flatMap fun x => (prodRep xs n).map (x :: ·)

/-- The restriction label of a modified terminal: None, the plus side, or
the minus side. -/
inductive Restr where
  | none
  | plus
  | minus
deriving DecidableEq

/-- The data of a UFL finite element that fem.py consults: the family tag,
the spanning degree bound (spanning_degree from tsfc.ufl_utils), the
reference value size and the topological dimension of its cell. -/
structure Element where
  family : String
  spanning_degree : ℕ
  reference_value_size : ℕ
  topological_dimension : ℕ
deriving DecidableEq

/-- A tabulation key (ufl_element, c, D) as used for table lookups. -/
abbrev TabKey := Element × ℕ × List ℕ

/-- An analysed modified terminal: its element, restriction, local
derivative count, and the ufl_shape of the modified expression. -/
structure ModifiedTerminal where
  element : Element
  restriction : Restr
  local_derivatives : ℕ
  expr_shape : List ℕ

/-- Modelled from the spec: the GEM IR node kinds (module gem, which is not
under src/): literals, variables, fixed and free indexing, partial indexing
(gem.partial_indexed) by a fixed entity, by a free index, or by a
VariableIndex expression, sums, products, index sums and list tensors; Zero
records a shape as gem.Zero does.  Free indices are named by numbers; an
IndexSum records the extent its bound index received. -/
inductive Gem where
  | Zero (shape : List ℕ)
  | Literal (v : ℚ)
  | LitVec (vs : List ℚ)
  | LitMat (m : Mat)
  | LitCube (c : List Mat)
  | Variable (name : String) (shape : List ℕ)
  | Indexed (agg : Gem) (i : ℕ)
  | IndexedFree (agg : Gem) (r : ℕ)
  | PartFixed (agg : Gem) (i : ℕ)
  | PartFree (agg : Gem) (r : ℕ)
  | PartVar (agg : Gem) (ix : Gem)
  | Sum (a b : Gem)
  | Product (a b : Gem)
  | IndexSum (body : Gem) (r : ℕ) (extent : ℕ)
  | ListTensor (shape : List ℕ) (elems : List Gem)

/-- The shape of a GEM node. -/
def gemShape : Gem → List ℕ
  | .Zero s => s
  | .Literal _ => []
  | .LitVec vs => [vs.length]
  | .LitMat m => [m.length, (m.headD []).length]
  | .LitCube c => [c.length, (c.headD []).length, ((c.headD []).headD []).length]
  | .Variable _ s => s
  | .Indexed _ _ => []
  | .IndexedFree _ _ => []
  | .PartFixed a _ => (gemShape a).tail
  | .PartFree a _ => (gemShape a).tail
  | .PartVar a _ => (gemShape a).tail
  | .Sum _ _ => []
  | .Product _ _ => []
  | .IndexSum _ _ _ => []
  | .ListTensor s _ => s

/-- Whether a GEM node is a symbolic zero. -/
def Gem.isZero : Gem → Bool
  | .Zero _ => true
  | _ => false

/-- Modelled from the spec: gem.Literal folds a zero scalar to Zero. -/
def mkLiteral (v : ℚ) : Gem := if v = 0 then .Zero [] else .Literal v

/-- Modelled from the spec: gem.Literal folds an all-zero 1-D array to a
shaped Zero. -/
def mkLitVec (vs : List ℚ) : Gem :=
  if vs.all fun v => decide (v = 0) then .Zero [vs.length] else .LitVec vs

/-- Modelled from the spec: gem.Literal on a 2-D array, folding all-zero
arrays to a shaped Zero. -/
def mkLitMat (m : Mat) : Gem :=
  if m.all fun r => r.all fun v => decide (v = 0) then
    .Zero [m.length, (m.headD []).length]
  else .LitMat m

/-- Modelled from the spec: gem.Literal on a 3-D array, folding all-zero
arrays to a shaped Zero. -/
def mkLitCube (c : List Mat) : Gem :=
  if c.all fun m => m.all fun r => r.all fun v => decide (v = 0) then
    .Zero [c.length, (c.headD []).length, ((c.headD []).headD []).length]
  else .LitCube c

/-- Modelled from the spec: gem.Indexed with a fixed index folds Zero to
Zero and constant-folds indexing into a 1-D literal. -/
def mkIndexed (a : Gem) (i : ℕ) : Gem :=
  match a with
  | .Zero _ => .Zero []
  | .LitVec vs => mkLiteral (vs.getD i 0)
  | _ => .Indexed a i

/-- Modelled from the spec: gem.Indexed with a free index folds Zero to
Zero. -/
def mkIndexedFree (a : Gem) (r : ℕ) : Gem :=
  if a.isZero then .Zero [] else .IndexedFree a r

/-- Modelled from the spec: gem.Sum drops symbolic-zero operands. -/
def mkSum (a b : Gem) : Gem :=
  if a.isZero then b else if b.isZero then a else .Sum a b

/-- Modelled from the spec: gem.Product folds to Zero when either operand
is a symbolic zero. -/
def mkProduct (a b : Gem) : Gem :=
  if a.isZero || b.isZero then .Zero [] else .Product a b

/-- Modelled from the spec: gem.IndexSum of a symbolic-zero summand folds
to Zero. -/
def mkIndexSum (body : Gem) (r extent : ℕ) : Gem :=
  if body.isZero then .Zero [] else .IndexSum body r extent

mutual

/-- Whether a GEM DAG contains an index-sum (contraction) node. -/
def hasIndexSum : Gem → Bool
  | .IndexSum _ _ _ => true
  | .Indexed a _ => hasIndexSum a
  | .IndexedFree a _ => hasIndexSum a
  | .PartFixed a _ => hasIndexSum a
  | .PartFree a _ => hasIndexSum a
  | .PartVar a ix => hasIndexSum a || hasIndexSum ix
  | .Sum a b => hasIndexSum a || hasIndexSum b
  | .Product a b => hasIndexSum a || hasIndexSum b
  | .ListTensor _ es => hasIndexSumList es
  | _ => false

/-- Whether any GEM DAG of a list contains an index-sum node. -/
def hasIndexSumList : List Gem → Bool
  | [] => false
  | g :: gs => hasIndexSum g || hasIndexSumList gs

end

/-- A raw per-point-set tabulator: the composition of make_tabulator with
the external FIAT tabulation (_tabulate), yielding (c, D, table) items. -/
abbrev RawTabulator := Element → ℕ → List (ℕ × List ℕ × Mat)

/-- The FIAT cell data consulted by TabulationManager.__init__: facet counts
and, for each integration entity, the raw tabulator obtained by composing
the entity's coordinate transform with the basis-library tabulation. -/
structure FiatCell where
  num_facets : ℕ
  base_num_facets : ℕ
  cell_tab : RawTabulator
  facet_tab : ℕ → RawTabulator
  horiz_tab : ℕ → RawTabulator
  vert_tab : ℕ → RawTabulator

/-- fem.py TabulationManager state: the integral type, the per-entity
tabulators, and the tables keyed by (ufl_element, c, D). -/
structure TabulationManager where
  integral_type : String
  tabulators : List RawTabulator
  tables : TabKey → Option StoredTable

/-- The eight integral types accepted by TabulationManager.__init__
(fem.py lines 97-116). -/
def supportedIntegralTypes : List String :=
  ["cell", "exterior_facet", "interior_facet", "exterior_facet_bottom",
   "exterior_facet_top", "interior_facet_horiz", "exterior_facet_vert",
   "interior_facet_vert"]

/-- fem.py TabulationManager.__init__ (lines 83-116): build one tabulator
for a cell integral, one per facet for facet integrals, two for the
horizontal extruded variants, one per base-cell facet for the vertical
extruded variants, and raise NotImplementedError on any other integral
type. -/
def TabulationManager.init (integral_type : String) (cell : FiatCell) :
    Except String TabulationManager :=
  if integral_type = "cell" then
    .ok ⟨integral_type, [cell.cell_tab], fun _ => Option.none⟩
  else if integral_type ∈ ["exterior_facet", "interior_facet"] then
    .ok ⟨integral_type, (List.range cell.num_facets).map cell.facet_tab, fun _ => Option.none⟩
  else if integral_type ∈ ["exterior_facet_bottom", "exterior_facet_top",
      "interior_facet_horiz"] then
    .ok ⟨integral_type, (List.range 2).map cell.horiz_tab, fun _ => Option.none⟩
  else if integral_type ∈ ["exterior_facet_vert", "interior_facet_vert"] then
    .ok ⟨integral_type, (List.range cell.base_num_facets).map cell.vert_tab,
      fun _ => Option.none⟩
  else .error ("integral type " ++ integral_type ++ " not supported")

/-- The per-tabulator part of TabulationManager.tabulate: apply tabulate
(the snapping and constant-collapse pass) to every raw (c, D, table) item
of one tabulator. -/
def tabulateGen (raw : RawTabulator) (elem : Element) (order : ℕ) :
    Except String (List (ℕ × List ℕ × Table)) :=
  mapME (fun cdt => match tabulateStep elem.spanning_degree cdt.2.1 cdt.2.2 with
    | .error e => .error e
    | .ok t => .ok (cdt.1, cdt.2.1, t)) (raw elem order)

/-- Write one table into the manager's store. -/
def TabulationManager.insertTable (tm : TabulationManager) (k : TabKey) (st : StoredTable) :
    TabulationManager :=
  ⟨tm.integral_type, tm.tabulators,
    fun q => if q = k then some st else tm.tables q⟩

/-- fem.py TabulationManager.tabulate (lines 118-140): run every tabulator,
group the resulting tables by (c, D) key in tabulator order, then store
them: for a cell integral the single table per key is stored directly; for
facet integrals the per-facet tables are stacked, collapsing facetwise
constant rows after an allclose assertion. -/
def TabulationManager.tabulate (tm : TabulationManager) (elem : Element) (maxDeriv : ℕ) :
    Except String TabulationManager :=
  match mapME (fun t => tabulateGen t elem maxDeriv) tm.tabulators with
  | .error e => .error e
  | .ok perTab =>
    let items := perTab.flatten
    let keys := (items.map fun cdt => (cdt.1, cdt.2.1)).dedup
    let group := fun (k : ℕ × List ℕ) =>
      items.filterMap fun cdt => if (cdt.1, cdt.2.1) = k then some cdt.2.2 else Option.none
    if tm.integral_type = "cell" then
      foldME (fun acc k =>
        match group k with
        | [t] => .ok (acc.insertTable (elem, k.1, k.2)
            (match t with | .const r => .one r | .full m => .two m))
        | _ => .error "ValueError: unpacking") tm keys
    else
      foldME (fun acc k =>
        match stackTables (group k) with
        | .error e => .error e
        | .ok st => .ok (acc.insertTable (elem, k.1, k.2) st)) tm keys

/-- A facet selector as stored in the Translator's facet dictionary: either
a statically known facet number, or a dynamic gem.VariableIndex selection
expression. -/
inductive FacetSel where
  | static (n : ℕ)
  | dynamic (ix : Gem)

/-- fem.py Translator.__init__ (lines 162-174): the facet dictionary per
integral type, keyed by restriction; None when the integral type has no
facet notion. -/
def translatorFacet (integral_type : String) : Option (Restr → Option FacetSel) :=
  if integral_type ∈ ["exterior_facet", "exterior_facet_vert"] then
    some fun r =>
      match r with
      | Restr.none => some (.dynamic (mkIndexed (Gem.Variable "facet" [1]) 0))
      | _ => Option.none
  else if integral_type ∈ ["interior_facet", "interior_facet_vert"] then
    some fun r =>
      match r with
      | Restr.plus => some (.dynamic (mkIndexed (Gem.Variable "facet" [2]) 0))
      | Restr.minus => some (.dynamic (mkIndexed (Gem.Variable "facet" [2]) 1))
      | Restr.none => Option.none
  else if integral_type = "exterior_facet_bottom" then
    some fun r =>
      match r with
      | Restr.none => some (.static 0)
      | _ => Option.none
  else if integral_type = "exterior_facet_top" then
    some fun r =>
      match r with
      | Restr.none => some (.static 1)
      | _ => Option.none
  else if integral_type = "interior_facet_horiz" then
    some fun r =>
      match r with
      | Restr.plus => some (.static 1)
      | Restr.minus => some (.static 0)
      | Restr.none => Option.none
  else Option.none

/-- Dictionary lookup self.facet[restriction], with a missing dictionary or
a missing key modelled as Option.none. -/
def facetLookup (integral_type : String) (r : Restr) : Option FacetSel :=
  match translatorFacet integral_type with
  | Option.none => Option.none
  | some f => f r

/-- fem.py Translator.select_facet (lines 181-192): return the tensor
unchanged for a cell integral, otherwise partially index it by the facet
selector of the restriction. -/
def select_facet (integral_type : String) (tensor : Gem) (restriction : Restr) :
    Except String Gem :=
  if integral_type = "cell" then .ok tensor
  else
    match facetLookup integral_type restriction with
    | Option.none => .error "KeyError: facet"
    | some (.static n) => .ok (Gem.PartFixed tensor n)
    | some (.dynamic ix) => .ok (Gem.PartVar tensor ix)

/-- A Coefficient terminal: a named field with its UFL element. -/
structure CoefficientT where
  name : String
  element : Element

/-- fem.py Translator (lines 146-160): the context threaded through
translation.  The facet dictionary is recovered from the stored integral
type via translatorFacet. -/
structure Translator where
  tabulation_manager : TabulationManager
  weights : Gem
  quadrature_index : ℕ
  argument_indices : List ℕ
  coefficient_mapper : CoefficientT → Gem
  index_cache : Element → ℕ

/-- fem.py iterate_shape (lines 201-226), the enumeration part: for each
component c of the element's reference value size and each canonical
derivative multi-index obtained from the ordered derivative sequences,
collect the callback result for the key (ufl_element, c, D). -/
def iterate_shape_results (mt : ModifiedTerminal) (callback : TabKey → Except String Gem) :
    Except String (List Gem) :=
  match mapME (fun c => mapME (fun fd => callback (mt.element, c, fd))
      ((prodRep (List.range mt.element.topological_dimension) mt.local_derivatives).map
        (flat_index mt.element.topological_dimension)))
      (List.range mt.element.reference_value_size) with
  | .error e => .error e
  | .ok nested => .ok nested.flatten

/-- fem.py iterate_shape (lines 201-234): enumerate the scalar results,
assert that their number equals the flattened value size of the terminal
expression, and reassemble them into a ListTensor (or return the single
scalar for an empty shape). -/
def iterate_shape (mt : ModifiedTerminal) (callback : TabKey → Except String Gem) :
    Except String Gem :=
  match iterate_shape_results mt callback with
  | .error e => .error e
  | .ok result =>
    if result.length = mt.expr_shape.prod then
      if mt.expr_shape.isEmpty then .ok (result.headD (Gem.Zero []))
      else .ok (Gem.ListTensor mt.expr_shape result)
    else .error "assertion failed: iterate shape result count"

/-- numpy.count_nonzero on a table row. -/
def countNonzero (r : Row) : ℕ := (r.filter fun v => decide (v ≠ 0)).length

/-- The positions of the nonzero entries of a row. -/
def nonzeroIndices (r : Row) : List ℕ :=
  (List.range r.length).filter fun i => decide (r.getD i 0 ≠ 0)

/-- The explicit finite sum of products over only the nonzero entries of a
cellwise constant table, built with the same node constructors the
Coefficient rule uses: the shape the spec ascribes to the sparse
expansion. -/
def sparseExpansion (tbl : Row) (ka : Gem) : Gem :=
  (nonzeroIndices tbl).foldl
    (fun acc i => mkSum acc (mkProduct (mkIndexed (mkLitVec tbl) i) (mkIndexed ka i)))
    (Gem.Zero [])

/-- The general index-sum contraction the Coefficient rule emits outside the
sparse case (fem.py lines 301-303), specialised to a cellwise constant row:
the bound index receives the row's extent. -/
def generalIndexSum (tbl : Row) (ka : Gem) (r : ℕ) : Gem :=
  mkIndexSum (mkProduct (mkIndexedFree (mkLitVec tbl) r) (mkIndexedFree ka r)) r tbl.length

/-- fem.py translate for QuadratureWeight (lines 249-251): the weights
vector indexed by the quadrature index. -/
def translateQuadratureWeight (params : Translator) : Gem :=
  mkIndexedFree params.weights params.quadrature_index

/-- fem.py translate for Argument (lines 259-273): per tabulation key, a
cellwise constant table is wrapped as a literal row, otherwise the literal
table is facet-selected and partially indexed by the quadrature index; the
row is then indexed by the argument's index. -/
def translateArgument (terminal_number : ℕ) (mt : ModifiedTerminal) (params : Translator) :
    Except String Gem :=
  match params.argument_indices[terminal_number]? with
  | Option.none => .error "IndexError: argument index"
  | some argument_index =>
    iterate_shape mt fun key =>
      match params.tabulation_manager.tables key with
      | Option.none => .error "KeyError: table"
      | some (.one tbl) => .ok (mkIndexedFree (mkLitVec tbl) argument_index)
      | some (.two m) =>
        match select_facet params.tabulation_manager.integral_type (mkLitMat m)
            mt.restriction with
        | .error e => .error e
        | .ok t => .ok (mkIndexedFree (Gem.PartFree t params.quadrature_index) argument_index)
      | some (.three c) =>
        match select_facet params.tabulation_manager.integral_type (mkLitCube c)
            mt.restriction with
        | .error e => .error e
        | .ok t => .ok (mkIndexedFree (Gem.PartFree t params.quadrature_index) argument_index)

/-- fem.py translate for Coefficient, the per-key callback (lines 286-303):
a cellwise constant table with at most two nonzero entries is expanded into
an explicit sum (after asserting the row and coefficient shapes agree);
otherwise the row — the constant literal row, or the facet-selected table
partially indexed by the quadrature index — is contracted against the
coefficient values through the element's cached summation index. -/
def coefficientCallback (params : Translator) (elem : Element) (restriction : Restr)
    (ka : Gem) (key : TabKey) : Except String Gem :=
  match params.tabulation_manager.tables key with
  | Option.none => .error "KeyError: table"
  | some (.one tbl) =>
    if countNonzero tbl ≤ 2 then
      if gemShape (mkLitVec tbl) = gemShape ka then
        .ok ((List.range tbl.length).foldl
          (fun acc i => mkSum acc (mkProduct (mkIndexed (mkLitVec tbl) i) (mkIndexed ka i)))
          (Gem.Zero []))
      else .error "assertion failed: row shape equals ka shape"
    else
      .ok (mkIndexSum (mkProduct (mkIndexedFree (mkLitVec tbl) (params.index_cache elem))
        (mkIndexedFree ka (params.index_cache elem))) (params.index_cache elem) tbl.length)
  | some (.two m) =>
    match select_facet params.tabulation_manager.integral_type (mkLitMat m) restriction with
    | .error e => .error e
    | .ok t =>
      .ok (mkIndexSum (mkProduct
        (mkIndexedFree (Gem.PartFree t params.quadrature_index) (params.index_cache elem))
        (mkIndexedFree ka (params.index_cache elem))) (params.index_cache elem)
        ((gemShape (Gem.PartFree t params.quadrature_index)).headD 0))
  | some (.three c) =>
    match select_facet params.tabulation_manager.integral_type (mkLitCube c) restriction with
    | .error e => .error e
    | .ok t =>
      .ok (mkIndexSum (mkProduct
        (mkIndexedFree (Gem.PartFree t params.quadrature_index) (params.index_cache elem))
        (mkIndexedFree ka (params.index_cache elem))) (params.index_cache elem)
        ((gemShape (Gem.PartFree t params.quadrature_index)).headD 0))

/-- fem.py translate for Coefficient (lines 276-305): a Real-family
coefficient is returned as the coefficient mapper's value unchanged, its
local derivative count asserted zero; otherwise the kernel argument is
restriction-indexed (slot 0 for plus, slot 1 for minus, unchanged when
unrestricted) and the keys are enumerated through iterate_shape with the
contraction callback. -/
def translateCoefficient (terminal : CoefficientT) (mt : ModifiedTerminal)
    (params : Translator) : Except String Gem :=
  if terminal.element.family = "Real" then
    if mt.local_derivatives = 0 then .ok (params.coefficient_mapper terminal)
    else .error "assertion failed: local derivatives on Real coefficient"
  else
    iterate_shape mt (coefficientCallback params terminal.element mt.restriction
      (match mt.restriction with
       | Restr.none => params.coefficient_mapper terminal
       | Restr.plus => Gem.PartFixed (params.coefficient_mapper terminal) 0
       | Restr.minus => Gem.PartFixed (params.coefficient_mapper terminal) 1))

/-- Whether the first list is an initial segment of the second. -/
def headMatches : List Char → List Char → Bool
  | [], _ => true
  | _ :: _, [] => false
  | a :: as, b :: bs => a == b && headMatches as bs

/-- Python str.startswith, evaluated on the character lists of the two
strings. -/
def pyStartswith (s p : String) : Bool := headMatches p.data s.data

/-- fem.py process (lines 308-329), the setup phase: construct the
TabulationManager for the integral type and run tabulate for every
(element, maximal derivative order) pair whose family is not Real. -/
def processSetup (integral_type : String) (cell : FiatCell)
    (maxDerivs : List (Element × ℕ)) : Except String TabulationManager :=
  match TabulationManager.init integral_type cell with
  | .error e => .error e
  | .ok tm =>
    foldME (fun acc ed =>
      if ed.1.family ≠ "Real" then acc.tabulate ed.1 ed.2 else .ok acc) tm maxDerivs

/-- fem.py process (lines 308-343).  The collaborators from the symbolic
front end — simplify_abs, the modified-terminal collection reduced to its
per-element maximal derivative orders, PickRestriction, and the expression
walk map_expr_dags with a Translator — live outside this file's source and
are passed as parameters.  After the setup phase, an interior-facet
integral type branches into one integrand per restriction combination of
the argument slots, otherwise the single integrand is used, and every
resulting expression is translated. -/
def process {E G : Type} (integral_type : String) (cell : FiatCell)
    (argument_indices : List ℕ) (integrand : E)
    (simplify_abs : E → E)
    (collect_max_derivs : E → List (Element × ℕ))
    (pick_restriction : List String → E → E)
    (translate_dag : TabulationManager → E → G) :
    Except String (List G) :=
  match processSetup integral_type cell (collect_max_derivs (simplify_abs integrand)) with
  | .error e => .error e
  | .ok tm =>
    .ok ((if pyStartswith integral_type "interior_facet" then
        (prodRep ["+", "-"] argument_indices.length).map
          fun rs => pick_restriction rs (simplify_abs integrand)
      else [simplify_abs integrand]).map (translate_dag tm))

/-- Scalar value of a fully indexed aggregate under a variable environment:
1-D literal rows index into their entries, variables consult the
environment; aggregates that cannot appear in scalar position evaluate to
zero. -/
def evalIdx (vars : String → ℕ → ℚ) (a : Gem) (i : ℕ) : ℚ :=
  match a with
  | .LitVec vs => vs.getD i 0
  | .Variable name _ => vars name i
  | _ => 0

/-- Evaluation of scalar GEM expressions, the semantic reference for the
sparse-contraction equivalence: environments give the entries of variables
and the current values of free indices. -/
def evalGem (vars : String → ℕ → ℚ) : (ℕ → ℕ) → Gem → ℚ
  | _, .Literal v => v
  | _, .Indexed a i => evalIdx vars a i
  | idxs, .IndexedFree a r => evalIdx vars a (idxs r)
  | idxs, .Sum a b => evalGem vars idxs a + evalGem vars idxs b
  | idxs, .Product a b => evalGem vars idxs a * evalGem vars idxs b
  | idxs, .IndexSum body r e =>
    ∑ j ∈ Finset.range e, evalGem vars (Function.update idxs r j) body
  | _, _ => 0

/-- An empty TabulationManager for concrete instantiations. -/
def emptyTM : TabulationManager := ⟨"cell", [], fun _ => Option.none⟩

/-- A concrete Translator whose table store holds one cellwise constant
row with two nonzero entries. -/
def cSparseParams : Translator :=
  ⟨⟨"cell", [], fun k => if k = (⟨"P1", 1, 1, 1⟩, 0, [0]) then some (.one [3, 0, 5])
    else Option.none⟩,
   Gem.Variable "weights" [2], 0, [], fun c => Gem.Variable c.name [3], fun _ => 1⟩

/-- A concrete Translator for the Real-coefficient witness. -/
def cRealParams : Translator :=
  ⟨emptyTM, Gem.Variable "weights" [1], 0, [], fun c => Gem.Variable c.name [2], fun _ => 0⟩

/-- A trivial FIAT cell with no facets and empty raw tabulators. -/
def cCell : FiatCell :=
  ⟨0, 0, fun _ _ => [], fun _ _ _ => [], fun _ _ _ => [], fun _ _ _ => []⟩

lemma snapTo_self (eps t : ℚ) : snapTo eps t t = t := by
  unfold snapTo
  split_ifs <;> rfl

lemma snapTo_of_far (eps t x : ℚ) (h : ¬ |x - t| < eps) : snapTo eps t x = x := by
  unfold snapTo
  exact if_neg h

lemma snapTo_cases (eps t x : ℚ) : snapTo eps t x = t ∨ snapTo eps t x = x := by
  unfold snapTo
  split_ifs <;> simp

lemma snapValue_zero {eps : ℚ} (h : eps ≤ 1/2) : snapValue eps 0 = 0 := by
  unfold snapValue
  rw [snapTo_self,
      snapTo_of_far eps 1 0 (by rw [show |(0 : ℚ) - 1| = 1 by norm_num]; linarith),
      snapTo_of_far eps (-1) 0 (by rw [show |(0 : ℚ) - -1| = 1 by norm_num]; linarith),
      snapTo_of_far eps (1/2) 0 (by rw [show |(0 : ℚ) - 1/2| = 1/2 by norm_num]; linarith),
      snapTo_of_far eps (-(1/2)) 0 (by rw [show |(0 : ℚ) - -(1/2)| = 1/2 by norm_num]; linarith)]

lemma snapValue_one {eps : ℚ} (h : eps ≤ 1/2) : snapValue eps 1 = 1 := by
  unfold snapValue
  rw [snapTo_of_far eps 0 1 (by rw [show |(1 : ℚ) - 0| = 1 by norm_num]; linarith),
      snapTo_self,
      snapTo_of_far eps (-1) 1 (by rw [show |(1 : ℚ) - -1| = 2 by norm_num]; linarith),
      snapTo_of_far eps (1/2) 1 (by rw [show |(1 : ℚ) - 1/2| = 1/2 by norm_num]; linarith),
      snapTo_of_far eps (-(1/2)) 1 (by rw [show |(1 : ℚ) - -(1/2)| = 3/2 by norm_num]; linarith)]

lemma snapValue_neg_one {eps : ℚ} (h : eps ≤ 1/2) : snapValue eps (-1) = -1 := by
  unfold snapValue
  rw [snapTo_of_far eps 0 (-1) (by rw [show |(-1 : ℚ) - 0| = 1 by norm_num]; linarith),
      snapTo_of_far eps 1 (-1) (by rw [show |(-1 : ℚ) - 1| = 2 by norm_num]; linarith),
      snapTo_self,
      snapTo_of_far eps (1/2) (-1) (by rw [show |(-1 : ℚ) - 1/2| = 3/2 by norm_num]; linarith),
      snapTo_of_far eps (-(1/2)) (-1) (by rw [show |(-1 : ℚ) - -(1/2)| = 1/2 by norm_num]; linarith)]

lemma snapValue_half {eps : ℚ} (h : eps ≤ 1/2) : snapValue eps (1/2) = 1/2 := by
  unfold snapValue
  rw [snapTo_of_far eps 0 (1/2) (by rw [show |(1/2 : ℚ) - 0| = 1/2 by norm_num]; linarith),
      snapTo_of_far eps 1 (1/2) (by rw [show |(1/2 : ℚ) - 1| = 1/2 by norm_num]; linarith),
      snapTo_of_far eps (-1) (1/2) (by rw [show |(1/2 : ℚ) - -1| = 3/2 by norm_num]; linarith),
      snapTo_self,
      snapTo_of_far eps (-(1/2)) (1/2) (by rw [show |(1/2 : ℚ) - -(1/2)| = 1 by norm_num]; linarith)]

lemma snapValue_neg_half {eps : ℚ} (h : eps ≤ 1/2) : snapValue eps (-(1/2)) = -(1/2) := by
  unfold snapValue
  rw [snapTo_of_far eps 0 (-(1/2)) (by rw [show |(-(1/2) : ℚ) - 0| = 1/2 by norm_num]; linarith),
      snapTo_of_far eps 1 (-(1/2)) (by rw [show |(-(1/2) : ℚ) - 1| = 3/2 by norm_num]; linarith),
      snapTo_of_far eps (-1) (-(1/2)) (by rw [show |(-(1/2) : ℚ) - -1| = 1/2 by norm_num]; linarith),
      snapTo_of_far eps (1/2) (-(1/2)) (by rw [show |(-(1/2) : ℚ) - 1/2| = 1 by norm_num]; linarith),
      snapTo_self]

lemma snapValue_cases (eps x : ℚ) :
    snapValue eps x = 0 ∨ snapValue eps x = 1 ∨ snapValue eps x = -1 ∨
    snapValue eps x = 1/2 ∨ snapValue eps x = -(1/2) ∨ snapValue eps x = x := by
  unfold snapValue
  rcases snapTo_cases eps (-(1/2)) (snapTo eps (1/2) (snapTo eps (-1) (snapTo eps 1 (snapTo eps 0 x)))) with h5 | h5
  · exact Or.inr (Or.inr (Or.inr (Or.inr (Or.inl h5))))
  rw [h5]
  rcases snapTo_cases eps (1/2) (snapTo eps (-1) (snapTo eps 1 (snapTo eps 0 x))) with h4 | h4
  · exact Or.inr (Or.inr (Or.inr (Or.inl h4)))
  rw [h4]
  rcases snapTo_cases eps (-1) (snapTo eps 1 (snapTo eps 0 x)) with h3 | h3
  · exact Or.inr (Or.inr (Or.inl h3))
  rw [h3]
  rcases snapTo_cases eps 1 (snapTo eps 0 x) with h2 | h2
  · exact Or.inr (Or.inl h2)
  rw [h2]
  rcases snapTo_cases eps 0 x with h1 | h1
  · exact Or.inl h1
  exact Or.inr (Or.inr (Or.inr (Or.inr (Or.inr h1))))

lemma snapValue_idem {eps : ℚ} (h : eps ≤ 1/2) (x : ℚ) :
    snapValue eps (snapValue eps x) = snapValue eps x := by
  rcases snapValue_cases eps x with h0 | h1 | h2 | h3 | h4 | h5
  · rw [h0, snapValue_zero h]
  · rw [h1, snapValue_one h]
  · rw [h2, snapValue_neg_one h]
  · rw [h3, snapValue_half h]
  · rw [h4, snapValue_neg_half h]
  · rw [h5]
    exact h5

lemma mapME_forall₂ {α β : Type} (f : α → Except String β) :
    ∀ (l : List α) (res : List β), mapME f l = .ok res →
      List.Forall₂ (fun a b => f a = .ok b) l res := by
  intro l
  induction l with
  | nil =>
    intro res h
    cases h
    exact List.Forall₂.nil
  | cons a t ih =>
    intro res h
    unfold mapME at h
    cases hfa : f a with
    | error e => rw [hfa] at h; cases h
    | ok b =>
      rw [hfa] at h
      cases hrest : mapME f t with
      | error e => rw [hrest] at h; cases h
      | ok bs =>
        rw [hrest] at h
        cases h
        exact List.Forall₂.cons hfa (ih bs hrest)

lemma mapME_of_forall {α β : Type} (f : α → Except String β) (g : α → β) :
    ∀ (l : List α), (∀ a ∈ l, f a = .ok (g a)) → mapME f l = .ok (l.map g) := by
  intro l
  induction l with
  | nil => intro _; rfl
  | cons a t ih =>
    intro h
    unfold mapME
    rw [h a (List.mem_cons_self a t), ih fun x hx => h x (List.mem_cons_of_mem a hx)]
    rfl

lemma mapMO_of_forall {α β : Type} (f : α → Option β) (g : α → β) :
    ∀ (l : List α), (∀ a ∈ l, f a = some (g a)) → mapMO f l = some (l.map g) := by
  intro l
  induction l with
  | nil => intro _; rfl
  | cons a t ih =>
    intro h
    unfold mapMO
    rw [h a (List.mem_cons_self a t), ih fun x hx => h x (List.mem_cons_of_mem a hx)]
    rfl

lemma facetTabulateKey_of_ok {deg : ℕ} {D : List ℕ} {mats : List Mat} {ts : List Table}
    (h : mapME (tabulateStep deg D) mats = .ok ts) :
    facetTabulateKey deg D mats = stackTables ts := by
  unfold facetTabulateKey
  rw [h]

lemma facetTabulateKey_of_err {deg : ℕ} {D : List ℕ} {mats : List Mat} {e : String}
    (h : mapME (tabulateStep deg D) mats = .error e) :
    facetTabulateKey deg D mats = .error e := by
  unfold facetTabulateKey
  rw [h]

lemma stackTables_of_rows {ts : List Table} {rows : List Row}
    (h : mapMO constRow? ts = some rows) :
    stackTables ts =
      if rows.isEmpty then .ok (.three [])
      else if allcloseMean rows then .ok (.one (rows.headD []))
      else .error "assertion failed: facetwise constant table" := by
  unfold stackTables
  rw [h]

lemma stackTables_of_none {ts : List Table}
    (h : mapMO constRow? ts = Option.none) :
    stackTables ts = .ok (.three (ts.map Table.toMat)) := by
  unfold stackTables
  rw [h]

lemma mapMO_constRow_full_cons (m : Mat) (l : List Table) :
    mapMO constRow? (Table.full m :: l) = Option.none := rfl

lemma tabulateStep_const_of_le {deg : ℕ} {D : List ℕ} {tbl : Mat} {t : Table}
    (hle : deg ≤ D.sum) (h : tabulateStep deg D tbl = .ok t) :
    t = .const ((snapMat epsilon tbl).headD []) ∧ allcloseMean (snapMat epsilon tbl) = true := by
  unfold tabulateStep at h
  rw [if_pos hle] at h
  by_cases hc : allcloseMean (snapMat epsilon tbl) = true
  · rw [if_pos hc] at h
    cases h
    exact ⟨rfl, hc⟩
  · rw [if_neg hc] at h
    cases h

lemma tabulateStep_full_of_not_le {deg : ℕ} {D : List ℕ} {tbl : Mat}
    (hle : ¬ deg ≤ D.sum) : tabulateStep deg D tbl = .ok (.full (snapMat epsilon tbl)) := by
  unfold tabulateStep
  rw [if_neg hle]

/-- C3: a tabulated table is collapsed to a single representative row exactly
when the element's spanning degree bound is at or below the total requested
derivative order, a decision depending only on (deg, D) and never on the
numeric table content; whenever the collapse is performed, every snapped row
is mean-equal within tolerance, a failed check being a fatal assertion error;
the same discipline governs the cross-facet stacking of
TabulationManager.tabulate. -/
theorem tabulate_constant_collapse (deg : ℕ) (D : List ℕ) (tbl : Mat) (mats : List Mat) :
    ((∃ m, tabulateStep deg D tbl = .ok (.full m)) ↔ ¬ deg ≤ D.sum)
    ∧ (∀ r, tabulateStep deg D tbl = .ok (.const r) →
        deg ≤ D.sum ∧ allcloseMean (snapMat epsilon tbl) = true
          ∧ r = (snapMat epsilon tbl).headD [])
    ∧ (deg ≤ D.sum → allcloseMean (snapMat epsilon tbl) = false →
        tabulateStep deg D tbl = .error "assertion failed: cellwise constant table")
    ∧ (mats ≠ [] →
        ((∃ c, facetTabulateKey deg D mats = .ok (.three c)) ↔ ¬ deg ≤ D.sum))
    ∧ (∀ r, facetTabulateKey deg D mats = .ok (.one r) →
        deg ≤ D.sum
          ∧ allcloseMean (mats.map fun m => (snapMat epsilon m).headD []) = true
          ∧ r = (mats.map fun m => (snapMat epsilon m).headD []).headD []) := by
  have hrowsEq : deg ≤ D.sum → ∀ (ts : List Table),
      mapME (tabulateStep deg D) mats = .ok ts →
      mapMO constRow? ts = some (mats.map fun m => (snapMat epsilon m).headD []) := by
    intro hle ts hts
    have hf2 := mapME_forall₂ (tabulateStep deg D) mats ts hts
    have hall : ∀ (l₁ : List Mat) (l₂ : List Table),
        List.Forall₂ (fun a b => tabulateStep deg D a = .ok b) l₁ l₂ →
        mapMO constRow? l₂ = some (l₁.map fun m => (snapMat epsilon m).headD []) := by
      intro l₁ l₂ h
      induction h with
      | nil => rfl
      | cons hab _ ih =>
        rcases tabulateStep_const_of_le hle hab with ⟨rfl, _⟩
        simp only [mapMO, constRow?, ih, List.map_cons]
    exact hall mats ts hf2
  refine ⟨?_, ?_, ?_, ?_, ?_⟩
  · constructor
    · intro ⟨m, hm⟩
      intro hle
      rcases tabulateStep_const_of_le hle hm with ⟨h, _⟩
      cases h
    · intro hle
      exact ⟨snapMat epsilon tbl, tabulateStep_full_of_not_le hle⟩
  · intro r hr
    by_cases hle : deg ≤ D.sum
    · rcases tabulateStep_const_of_le hle hr with ⟨h, hc⟩
      cases h
      exact ⟨hle, hc, rfl⟩
    · rw [tabulateStep_full_of_not_le hle] at hr
      cases hr
  · intro hle hc
    unfold tabulateStep
    rw [if_pos hle, if_neg (by rw [hc]; intro h; cases h)]
  · intro hne
    constructor
    · intro ⟨c, hc⟩
      intro hle
      cases hts : mapME (tabulateStep deg D) mats with
      | error e => rw [facetTabulateKey_of_err hts] at hc; cases hc
      | ok ts =>
        rw [facetTabulateKey_of_ok hts, stackTables_of_rows (hrowsEq hle ts hts)] at hc
        have hlen : (mats.map fun m => (snapMat epsilon m).headD []).isEmpty ≠ true := by
          cases mats with
          | nil => exact absurd rfl hne
          | cons a t => exact Bool.false_ne_true
        rw [if_neg hlen] at hc
        by_cases hac : allcloseMean (mats.map fun m => (snapMat epsilon m).headD []) = true
        · rw [if_pos hac] at hc; cases hc
        · rw [if_neg hac] at hc; cases hc
    · intro hle
      have hmap := mapME_of_forall (tabulateStep deg D) (fun m => .full (snapMat epsilon m))
        mats (fun m _ => tabulateStep_full_of_not_le hle)
      rw [facetTabulateKey_of_ok hmap]
      cases mats with
      | nil => exact ⟨[], rfl⟩
      | cons a t =>
        refine ⟨((a :: t).map fun m => Table.full (snapMat epsilon m)).map Table.toMat, ?_⟩
        rw [List.map_cons]
        rw [stackTables_of_none (mapMO_constRow_full_cons _ _), List.map_cons]
  · intro r hr
    cases hts : mapME (tabulateStep deg D) mats with
    | error e => rw [facetTabulateKey_of_err hts] at hr; cases hr
    | ok ts =>
      rw [facetTabulateKey_of_ok hts] at hr
      by_cases hle : deg ≤ D.sum
      · rw [stackTables_of_rows (hrowsEq hle ts hts)] at hr
        by_cases hemp : (mats.map fun m => (snapMat epsilon m).headD []).isEmpty = true
        · rw [if_pos hemp] at hr; cases hr
        · rw [if_neg hemp] at hr
          by_cases hac : allcloseMean (mats.map fun m => (snapMat epsilon m).headD []) = true
          · rw [if_pos hac] at hr
            cases hr
            exact ⟨hle, hac, rfl⟩
          · rw [if_neg hac] at hr; cases hr
      · have hmap := mapME_of_forall (tabulateStep deg D) (fun m => .full (snapMat epsilon m))
          mats (fun m _ => tabulateStep_full_of_not_le hle)
        rw [hts] at hmap
        injection hmap with hmap
        subst hmap
        cases mats with
        | nil => cases hr
        | cons a t =>
          rw [List.map_cons, stackTables_of_none (mapMO_constRow_full_cons _ _)] at hr
          cases hr

/-- C3 witness: a degree-2 element at derivative order 1 keeps the full
table, while a degree-1 element at order 1 attempts the collapse and fails
the mean-equality assertion on a non-constant table. -/
theorem tabulate_constant_collapse_witness :
    (∃ m, tabulateStep 2 [1] [[1, 0], [0, 1]] = .ok (.full m))
    ∧ tabulateStep 1 [1] [[1, 0], [0, 1]] = .error "assertion failed: cellwise constant table" := by
  have heps : epsilon ≤ 1/2 := by norm_num [epsilon]
  have hsnap : snapMat epsilon [[1, 0], [0, 1]] = [[1, 0], [0, 1]] := by
    simp [snapMat, snapRow, snapValue_one heps, snapValue_zero heps]
  have habs : |(1 : ℚ)/2| = 1/2 := abs_of_nonneg (by norm_num)
  have hac : allcloseMean (snapMat epsilon [[1, 0], [0, 1]]) = false := by
    rw [hsnap]
    norm_num [allcloseMean, allcloseRow, closeTo, meanRow, atol, rtol, List.range_succ, habs]
  exact ⟨(tabulate_constant_collapse 2 [1] [[1, 0], [0, 1]] []).1.mpr (by norm_num),
    (tabulate_constant_collapse 1 [1] [[1, 0], [0, 1]] []).2.2.1 (by norm_num) hac⟩

lemma prodRep_length {α : Type} (xs : List α) (n : ℕ) :
    (prodRep xs n).length = xs.length ^ n := by
  induction n with
  | zero => rfl
  | succ n ih =>
    rw [prodRep, List.length_flatMap]
    have hmap : xs.map (List.length ∘ fun x => (prodRep xs n).map (x :: ·)) =
        List.replicate xs.length (xs.length ^ n) := by
      rw [List.eq_replicate_iff]
      refine ⟨by rw [List.length_map], ?_⟩
      intro b hb
      rcases List.mem_map.mp hb with ⟨x, _, hx⟩
      rw [← hx]
      simp [ih]
    rw [hmap, List.sum_replicate, smul_eq_mul, pow_succ, Nat.mul_comm]

lemma prodRep_mem {α : Type} (xs : List α) (n : ℕ) (l : List α) :
    l ∈ prodRep xs n ↔ l.length = n ∧ ∀ x ∈ l, x ∈ xs := by
  induction n generalizing l with
  | zero =>
    constructor
    · intro hl
      rcases List.mem_singleton.mp hl with rfl
      exact ⟨rfl, by intro x hx; cases hx⟩
    · intro ⟨hlen, _⟩
      rw [List.length_eq_zero] at hlen
      rw [hlen]
      exact List.mem_singleton.mpr rfl
  | succ n ih =>
    constructor
    · intro hl
      rcases List.mem_flatMap.mp hl with ⟨x, hx, hmem⟩
      rcases List.mem_map.mp hmem with ⟨t, ht, rfl⟩
      rcases (ih t).mp ht with ⟨hlen, hall⟩
      refine ⟨by simp [hlen], ?_⟩
      intro y hy
      rcases List.mem_cons.mp hy with rfl | hy
      · exact hx
      · exact hall y hy
    · intro ⟨hlen, hall⟩
      match l with
      | [] => cases hlen
      | a :: t =>
        refine List.mem_flatMap.mpr ⟨a, hall a (List.mem_cons_self a t), ?_⟩
        refine List.mem_map.mpr ⟨t, ?_, rfl⟩
        refine (ih t).mpr ⟨by simpa using hlen, ?_⟩
        intro y hy
        exact hall y (List.mem_cons_of_mem a hy)

lemma prodRep_nodup {α : Type} (xs : List α) (hxs : xs.Nodup) (n : ℕ) :
    (prodRep xs n).Nodup := by
  induction n with
  | zero => exact List.nodup_singleton []
  | succ n ih =>
    rw [prodRep, List.nodup_flatMap]
    constructor
    · intro x _
      exact ih.map (fun s t hst => List.tail_eq_of_cons_eq hst)
    · refine hxs.imp ?_
      intro x y hxy l hl hl'
      rcases List.mem_map.mp hl with ⟨t, _, rfl⟩
      rcases List.mem_map.mp hl' with ⟨t', _, hts⟩
      exact hxy (List.head_eq_of_cons_eq hts.symm)

/-- C5: the conversion from an ordered derivative sequence to a canonical
derivative multi-index (fem.py flat_index, lines 217-218) is invariant
under reordering: any two permutations of the same multiset of directions
yield the same key, and for sequences over range dim the entries of the
key sum to the derivative order, the sequence length. -/
theorem flat_index_order_invariant (dim : ℕ) (s t : List ℕ)
    (hperm : s.Perm t) (hmem : ∀ x ∈ s, x < dim) :
    flat_index dim s = flat_index dim t ∧ (flat_index dim s).sum = s.length := by
  constructor
  · unfold flat_index
    refine List.map_congr_left ?_
    intro d _
    exact hperm.count_eq d
  · unfold flat_index
    have hbridge : ((List.range dim).map fun d => s.count d).sum =
        ∑ d ∈ Finset.range dim, s.count d := rfl
    rw [hbridge]
    have hsub : s.toFinset ⊆ Finset.range dim := by
      intro x hx
      rw [Finset.mem_range]
      exact hmem x (List.mem_toFinset.mp hx)
    have hout : ∀ x ∈ Finset.range dim, x ∉ s.toFinset → s.count x = 0 := by
      intro x _ hx
      rw [List.count_eq_zero]
      intro hxs
      exact hx (List.mem_toFinset.mpr hxs)
    rw [← Finset.sum_subset hsub hout]
    exact List.sum_toFinset_count_eq_length s

/-- C5 witness: two orderings of the same mixed partial in two dimensions
give the same multi-index, whose entries sum to the derivative order. -/
theorem flat_index_order_invariant_witness :
    flat_index 2 [0, 1, 0] = flat_index 2 [1, 0, 0] ∧ (flat_index 2 [0, 1, 0]).sum = 3 :=
  flat_index_order_invariant 2 [0, 1, 0] [1, 0, 0] (by decide) (by decide)

lemma mapME_ok_length {α β : Type} (f : α → Except String β) (l : List α) (res : List β)
    (h : mapME f l = .ok res) : res.length = l.length :=
  (mapME_forall₂ f l res h).length_eq.symm

lemma forall₂_ok_mem {α β : Type} (f : α → Except String β) :
    ∀ (l : List α) (res : List β),
      List.Forall₂ (fun a b => f a = .ok b) l res → ∀ b ∈ res, ∃ a ∈ l, f a = .ok b := by
  intro l res h
  induction h with
  | nil => intro b hb; cases hb
  | cons hab htail ih =>
    intro b hb
    rcases List.mem_cons.mp hb with rfl | hb
    · exact ⟨_, List.mem_cons_self _ _, hab⟩
    · rcases ih b hb with ⟨a, ha, hfa⟩
      exact ⟨a, List.mem_cons_of_mem _ ha, hfa⟩

lemma mapME_ok_mem {α β : Type} (f : α → Except String β) (l : List α) (res : List β)
    (h : mapME f l = .ok res) : ∀ b ∈ res, ∃ a ∈ l, f a = .ok b :=
  forall₂_ok_mem f l res (mapME_forall₂ f l res h)

lemma iterate_shape_of_ok {mt : ModifiedTerminal} {callback : TabKey → Except String Gem}
    {res : List Gem} (h : iterate_shape_results mt callback = .ok res) :
    iterate_shape mt callback =
      if res.length = mt.expr_shape.prod then
        if mt.expr_shape.isEmpty then .ok (res.headD (Gem.Zero []))
        else .ok (Gem.ListTensor mt.expr_shape res)
      else .error "assertion failed: iterate shape result count" := by
  unfold iterate_shape
  rw [h]

lemma iterate_shape_of_err {mt : ModifiedTerminal} {callback : TabKey → Except String Gem}
    {e : String} (h : iterate_shape_results mt callback = .error e) :
    iterate_shape mt callback = .error e := by
  unfold iterate_shape
  rw [h]

/-- C4: for every modified terminal, the number of scalar results produced
by iterate_shape equals the element's reference value size times the number
of ordered derivative sequences of length local_derivatives over the
topological dimension; iterate_shape returns normally exactly when this
count equals the product of the terminal expression's value-shape
dimensions, the equality being asserted before reassembly. -/
theorem iterate_shape_count (mt : ModifiedTerminal) (callback : TabKey → Except String Gem) :
    (∀ res, iterate_shape_results mt callback = .ok res →
      res.length = mt.element.reference_value_size
        * mt.element.topological_dimension ^ mt.local_derivatives)
    ∧ ((∃ g, iterate_shape mt callback = .ok g) ↔
      ∃ res, iterate_shape_results mt callback = .ok res ∧ res.length = mt.expr_shape.prod) := by
  constructor
  · intro res hres
    unfold iterate_shape_results at hres
    cases hnested : mapME (fun c => mapME (fun fd => callback (mt.element, c, fd))
        ((prodRep (List.range mt.element.topological_dimension) mt.local_derivatives).map
          (flat_index mt.element.topological_dimension)))
        (List.range mt.element.reference_value_size) with
    | error e => rw [hnested] at hres; cases hres
    | ok nested =>
      rw [hnested] at hres
      injection hres with hres
      subst hres
      rw [List.length_flatten]
      have hlen : nested.map List.length =
          List.replicate mt.element.reference_value_size
            (mt.element.topological_dimension ^ mt.local_derivatives) := by
        rw [List.eq_replicate_iff]
        constructor
        · rw [List.length_map,
            mapME_ok_length _ _ _ hnested, List.length_range]
        · intro b hb
          rcases List.mem_map.mp hb with ⟨inner, hinner, rfl⟩
          rcases mapME_ok_mem _ _ _ hnested inner hinner with ⟨c, _, hc⟩
          rw [mapME_ok_length _ _ _ hc, List.length_map, prodRep_length, List.length_range]
      rw [hlen, List.sum_replicate, smul_eq_mul]
  · constructor
    · intro ⟨g, hg⟩
      cases hres : iterate_shape_results mt callback with
      | error e => rw [iterate_shape_of_err hres] at hg; cases hg
      | ok res =>
        rw [iterate_shape_of_ok hres] at hg
        by_cases hlen : res.length = mt.expr_shape.prod
        · exact ⟨res, rfl, hlen⟩
        · rw [if_neg hlen] at hg; cases hg
    · intro ⟨res, hres, hlen⟩
      rw [iterate_shape_of_ok hres, if_pos hlen]
      by_cases hsh : mt.expr_shape.isEmpty = true
      · rw [if_pos hsh]
        exact ⟨res.headD (Gem.Zero []), rfl⟩
      · rw [if_neg hsh]
        exact ⟨Gem.ListTensor mt.expr_shape res, rfl⟩

/-- C4 witness: a two-component element with one derivative in two
dimensions yields four scalar results, matching a 2 by 2 expression shape,
so iterate_shape succeeds. -/
theorem iterate_shape_count_witness :
    ∃ g, iterate_shape ⟨⟨"P1", 1, 2, 2⟩, Restr.none, 1, [2, 2]⟩
      (fun _ => .ok (Gem.Zero [])) = .ok g :=
  (iterate_shape_count ⟨⟨"P1", 1, 2, 2⟩, Restr.none, 1, [2, 2]⟩
      (fun _ => .ok (Gem.Zero []))).2.mpr
    ⟨[Gem.Zero [], Gem.Zero [], Gem.Zero [], Gem.Zero []], rfl, rfl⟩

/-- C6: the round-off snapping applied in tabulate (fem.py lines 61-65,
setting entries within epsilon of 0, 1, -1, 0.5, -0.5 to that value
exactly) is idempotent: snapping an already-snapped table leaves every
entry unchanged. -/
theorem snap_idempotent (m : Mat) : snapMat epsilon (snapMat epsilon m) = snapMat epsilon m := by
  have heps : epsilon ≤ 1/2 := by norm_num [epsilon]
  unfold snapMat snapRow
  rw [List.map_map]
  refine List.map_congr_left ?_
  intro r _
  simp only [Function.comp]
  rw [List.map_map]
  refine List.map_congr_left ?_
  intro x _
  simp only [Function.comp]
  exact snapValue_idem heps x

/-- C10: the facet assignment of Translator.__init__ and the select_facet
rule: exterior_facet_bottom maps the unrestricted value to facet 0 and
exterior_facet_top to facet 1; interior_facet_horiz maps plus to facet 1
and minus to facet 0; exterior_facet and exterior_facet_vert index a
one-element runtime facet variable at slot 0; interior_facet and
interior_facet_vert index a two-element runtime facet variable at slot 0
for plus and slot 1 for minus; and select_facet for a cell integral
returns its tensor unchanged for every restriction. -/
theorem translator_facet_assignment :
    facetLookup "exterior_facet_bottom" Restr.none = some (FacetSel.static 0)
    ∧ facetLookup "exterior_facet_top" Restr.none = some (FacetSel.static 1)
    ∧ facetLookup "interior_facet_horiz" Restr.plus = some (FacetSel.static 1)
    ∧ facetLookup "interior_facet_horiz" Restr.minus = some (FacetSel.static 0)
    ∧ facetLookup "exterior_facet" Restr.none
        = some (FacetSel.dynamic (Gem.Indexed (Gem.Variable "facet" [1]) 0))
    ∧ facetLookup "exterior_facet_vert" Restr.none
        = some (FacetSel.dynamic (Gem.Indexed (Gem.Variable "facet" [1]) 0))
    ∧ facetLookup "interior_facet" Restr.plus
        = some (FacetSel.dynamic (Gem.Indexed (Gem.Variable "facet" [2]) 0))
    ∧ facetLookup "interior_facet" Restr.minus
        = some (FacetSel.dynamic (Gem.Indexed (Gem.Variable "facet" [2]) 1))
    ∧ facetLookup "interior_facet_vert" Restr.plus
        = some (FacetSel.dynamic (Gem.Indexed (Gem.Variable "facet" [2]) 0))
    ∧ facetLookup "interior_facet_vert" Restr.minus
        = some (FacetSel.dynamic (Gem.Indexed (Gem.Variable "facet" [2]) 1))
    ∧ ∀ (tensor : Gem) (r : Restr), select_facet "cell" tensor r = .ok tensor :=
  ⟨rfl, rfl, rfl, rfl, rfl, rfl, rfl, rfl, rfl, rfl, fun _ _ => rfl⟩

/-- C9: translating a Coefficient whose element family is Real returns the
coefficient mapper's value unchanged — no restriction indexing, table
lookup or contraction — and the modified terminal's local derivative order
is asserted to be zero. -/
theorem coefficient_real_identity (terminal : CoefficientT) (mt : ModifiedTerminal)
    (params : Translator) (hfam : terminal.element.family = "Real") :
    (mt.local_derivatives = 0 →
      translateCoefficient terminal mt params = .ok (params.coefficient_mapper terminal))
    ∧ (mt.local_derivatives ≠ 0 →
      translateCoefficient terminal mt params
        = .error "assertion failed: local derivatives on Real coefficient") := by
  unfold translateCoefficient
  rw [if_pos hfam]
  constructor
  · intro h0
    rw [if_pos h0]
  · intro h0
    rw [if_neg h0]

/-- C9 witness: a Real coefficient with derivative order zero translates to
the coefficient mapper's value itself. -/
theorem coefficient_real_identity_witness :
    translateCoefficient ⟨"c", ⟨"Real", 0, 1, 1⟩⟩ ⟨⟨"Real", 0, 1, 1⟩, Restr.none, 0, []⟩
      cRealParams = .ok (cRealParams.coefficient_mapper ⟨"c", ⟨"Real", 0, 1, 1⟩⟩) :=
  (coefficient_real_identity ⟨"c", ⟨"Real", 0, 1, 1⟩⟩ ⟨⟨"Real", 0, 1, 1⟩, Restr.none, 0, []⟩
    cRealParams rfl).1 rfl

lemma mkSum_zero_right {acc : Gem} (h : acc = Gem.Zero [] ∨ acc.isZero = false) :
    mkSum acc (Gem.Zero []) = acc := by
  rcases h with rfl | h
  · rfl
  · unfold mkSum
    rw [if_neg (by rw [h]; exact Bool.false_ne_true),
      if_pos (show (Gem.Zero []).isZero = true from rfl)]

lemma mkSum_acc_ok {acc x : Gem} (hacc : acc = Gem.Zero [] ∨ acc.isZero = false)
    (hx : x = Gem.Zero [] ∨ x.isZero = false) :
    mkSum acc x = Gem.Zero [] ∨ (mkSum acc x).isZero = false := by
  unfold mkSum
  by_cases ha : acc.isZero = true
  · rw [if_pos ha]
    exact hx
  · rw [if_neg ha]
    by_cases hb : x.isZero = true
    · rw [if_pos hb]
      exact hacc
    · rw [if_neg hb]
      exact Or.inr rfl

lemma mkProduct_ok (a b : Gem) :
    mkProduct a b = Gem.Zero [] ∨ (mkProduct a b).isZero = false := by
  unfold mkProduct
  by_cases h : (a.isZero || b.isZero) = true
  · rw [if_pos h]
    exact Or.inl rfl
  · rw [if_neg h]
    exact Or.inr rfl

lemma foldl_mkSum_filter (g : ℕ → Gem) (p : ℕ → Bool)
    (hz : ∀ i, p i = false → g i = Gem.Zero [])
    (hok : ∀ i, g i = Gem.Zero [] ∨ (g i).isZero = false) :
    ∀ (l : List ℕ) (acc : Gem), acc = Gem.Zero [] ∨ acc.isZero = false →
      l.foldl (fun a i => mkSum a (g i)) acc
        = (l.filter p).foldl (fun a i => mkSum a (g i)) acc := by
  intro l
  induction l with
  | nil => intro acc _; rfl
  | cons a t ih =>
    intro acc hacc
    rw [List.foldl_cons]
    by_cases hp : p a = true
    · rw [List.filter_cons_of_pos hp, List.foldl_cons]
      exact ih _ (mkSum_acc_ok hacc (hok a))
    · have hpa : p a = false := by revert hp; cases p a <;> simp
      rw [List.filter_cons_of_neg hp, hz a hpa, mkSum_zero_right hacc]
      exact ih acc hacc

lemma mkIndexed_litvec_zero {tbl : Row} {i : ℕ} (h : tbl.getD i 0 = 0) :
    mkIndexed (mkLitVec tbl) i = Gem.Zero [] := by
  unfold mkLitVec
  by_cases hall : (tbl.all fun v => decide (v = 0)) = true
  · rw [if_pos hall]
    rfl
  · rw [if_neg hall]
    show mkLiteral (tbl.getD i 0) = Gem.Zero []
    rw [h]
    simp [mkLiteral]

lemma mkProduct_zero_left (b : Gem) : mkProduct (Gem.Zero []) b = Gem.Zero [] := by
  unfold mkProduct
  rw [if_pos]
  rw [Bool.or_eq_true]
  exact Or.inl rfl

lemma gemShape_mkLitVec (tbl : Row) : gemShape (mkLitVec tbl) = [tbl.length] := by
  unfold mkLitVec
  split_ifs <;> rfl

lemma hasIndexSum_mkLiteral (v : ℚ) : hasIndexSum (mkLiteral v) = false := by
  unfold mkLiteral
  split_ifs <;> rfl

lemma hasIndexSum_mkLitVec (tbl : Row) : hasIndexSum (mkLitVec tbl) = false := by
  unfold mkLitVec
  split_ifs <;> rfl

lemma hasIndexSum_mkIndexed {a : Gem} (i : ℕ) (h : hasIndexSum a = false) :
    hasIndexSum (mkIndexed a i) = false := by
  cases a <;> simp_all [mkIndexed, hasIndexSum, hasIndexSum_mkLiteral]

lemma hasIndexSum_mkSum {a b : Gem} (ha : hasIndexSum a = false)
    (hb : hasIndexSum b = false) : hasIndexSum (mkSum a b) = false := by
  unfold mkSum
  split_ifs <;> simp_all [hasIndexSum]

lemma hasIndexSum_mkProduct {a b : Gem} (ha : hasIndexSum a = false)
    (hb : hasIndexSum b = false) : hasIndexSum (mkProduct a b) = false := by
  unfold mkProduct
  split_ifs <;> simp_all [hasIndexSum]

lemma hasIndexSum_foldl (g : ℕ → Gem) (hg : ∀ i, hasIndexSum (g i) = false) :
    ∀ (l : List ℕ) (acc : Gem), hasIndexSum acc = false →
      hasIndexSum (l.foldl (fun a i => mkSum a (g i)) acc) = false := by
  intro l
  induction l with
  | nil => intro acc h; exact h
  | cons a t ih =>
    intro acc h
    rw [List.foldl_cons]
    exact ih _ (hasIndexSum_mkSum h (hg a))

lemma coefficientCallback_one {params : Translator} {elem : Element} {restriction : Restr}
    {ka : Gem} {key : TabKey} {tbl : Row}
    (h : params.tabulation_manager.tables key = some (.one tbl)) :
    coefficientCallback params elem restriction ka key =
      if countNonzero tbl ≤ 2 then
        if gemShape (mkLitVec tbl) = gemShape ka then
          .ok ((List.range tbl.length).foldl
            (fun acc i => mkSum acc (mkProduct (mkIndexed (mkLitVec tbl) i) (mkIndexed ka i)))
            (Gem.Zero []))
        else .error "assertion failed: row shape equals ka shape"
      else
        .ok (mkIndexSum (mkProduct (mkIndexedFree (mkLitVec tbl) (params.index_cache elem))
          (mkIndexedFree ka (params.index_cache elem))) (params.index_cache elem)
          tbl.length) := by
  unfold coefficientCallback
  rw [h]

/-- C2: in the Coefficient rule, whenever the looked-up table is cellwise
constant (1-D) with at most two nonzero entries (and the coefficient shape
matches, as asserted), the emitted IR is the explicit finite sum of
products over only the nonzero entries of the table — equal to
sparseExpansion — and contains no index-sum node whenever the coefficient
value itself contains none. -/
theorem coefficient_constant_sparse_rule (params : Translator) (elem : Element)
    (restriction : Restr) (tbl : Row) (ka : Gem) (key : TabKey)
    (htab : params.tabulation_manager.tables key = some (.one tbl))
    (hcnt : countNonzero tbl ≤ 2)
    (hshape : gemShape ka = [tbl.length])
    (hka : hasIndexSum ka = false) :
    coefficientCallback params elem restriction ka key = .ok (sparseExpansion tbl ka)
    ∧ hasIndexSum (sparseExpansion tbl ka) = false := by
  have hshape' : gemShape (mkLitVec tbl) = gemShape ka := by
    rw [hshape, gemShape_mkLitVec]
  have heq : (List.range tbl.length).foldl
      (fun acc i => mkSum acc (mkProduct (mkIndexed (mkLitVec tbl) i) (mkIndexed ka i)))
      (Gem.Zero []) = sparseExpansion tbl ka := by
    unfold sparseExpansion nonzeroIndices
    exact foldl_mkSum_filter
      (fun i => mkProduct (mkIndexed (mkLitVec tbl) i) (mkIndexed ka i))
      (fun i => decide (tbl.getD i 0 ≠ 0))
      (fun i hi => by
        have hzero : tbl.getD i 0 = 0 := not_not.mp (by simpa using of_decide_eq_false hi)
        show mkProduct (mkIndexed (mkLitVec tbl) i) (mkIndexed ka i) = Gem.Zero []
        rw [mkIndexed_litvec_zero hzero, mkProduct_zero_left])
      (fun i => mkProduct_ok _ _)
      (List.range tbl.length) (Gem.Zero []) (Or.inl rfl)
  have hnoIS : hasIndexSum (sparseExpansion tbl ka) = false := by
    unfold sparseExpansion
    refine hasIndexSum_foldl _ ?_ _ _ rfl
    intro i
    exact hasIndexSum_mkProduct (hasIndexSum_mkIndexed i (hasIndexSum_mkLitVec tbl))
      (hasIndexSum_mkIndexed i hka)
  refine ⟨?_, hnoIS⟩
  rw [coefficientCallback_one htab, if_pos hcnt, if_pos hshape', heq]

/-- C2 witness: a constant row with two nonzero entries against a
three-entry coefficient variable produces exactly the sparse expansion,
free of index-sum nodes. -/
theorem coefficient_constant_sparse_rule_witness :
    coefficientCallback cSparseParams ⟨"P1", 1, 1, 1⟩ Restr.none (Gem.Variable "w" [3])
      (⟨"P1", 1, 1, 1⟩, 0, [0]) = .ok (sparseExpansion [3, 0, 5] (Gem.Variable "w" [3]))
    ∧ hasIndexSum (sparseExpansion [3, 0, 5] (Gem.Variable "w" [3])) = false :=
  coefficient_constant_sparse_rule cSparseParams ⟨"P1", 1, 1, 1⟩ Restr.none [3, 0, 5]
    (Gem.Variable "w" [3]) (⟨"P1", 1, 1, 1⟩, 0, [0]) rfl (by decide) rfl rfl

lemma evalGem_isZero {vars : String → ℕ → ℚ} {idxs : ℕ → ℕ} {a : Gem}
    (h : a.isZero = true) : evalGem vars idxs a = 0 := by
  cases a <;> simp_all [Gem.isZero, evalGem]

lemma evalGem_mkSum (vars : String → ℕ → ℚ) (idxs : ℕ → ℕ) (a b : Gem) :
    evalGem vars idxs (mkSum a b) = evalGem vars idxs a + evalGem vars idxs b := by
  unfold mkSum
  split_ifs with h1 h2
  · rw [evalGem_isZero h1, zero_add]
  · rw [evalGem_isZero h2, add_zero]
  · rfl

lemma evalGem_mkProduct (vars : String → ℕ → ℚ) (idxs : ℕ → ℕ) (a b : Gem) :
    evalGem vars idxs (mkProduct a b) = evalGem vars idxs a * evalGem vars idxs b := by
  unfold mkProduct
  split_ifs with h
  · rw [Bool.or_eq_true] at h
    have hz : evalGem vars idxs a * evalGem vars idxs b = 0 := by
      rcases h with h | h
      · rw [evalGem_isZero h, zero_mul]
      · rw [evalGem_isZero h, mul_zero]
    rw [hz]
    rfl
  · rfl

lemma evalGem_mkIndexSum (vars : String → ℕ → ℚ) (idxs : ℕ → ℕ) (body : Gem) (r e : ℕ) :
    evalGem vars idxs (mkIndexSum body r e)
      = ∑ j ∈ Finset.range e, evalGem vars (Function.update idxs r j) body := by
  unfold mkIndexSum
  split_ifs with h
  · rw [show evalGem vars idxs (Gem.Zero []) = 0 from rfl]
    symm
    exact Finset.sum_eq_zero fun j _ => evalGem_isZero h
  · rfl

lemma evalGem_mkIndexed (vars : String → ℕ → ℚ) (idxs : ℕ → ℕ) (a : Gem) (i : ℕ) :
    evalGem vars idxs (mkIndexed a i) = evalIdx vars a i := by
  cases a <;> try rfl
  case LitVec vs =>
    show evalGem vars idxs (mkLiteral (vs.getD i 0)) = vs.getD i 0
    unfold mkLiteral
    split_ifs with h
    · rw [h]
      rfl
    · rfl

lemma evalGem_mkIndexedFree (vars : String → ℕ → ℚ) (idxs : ℕ → ℕ) (a : Gem) (r : ℕ) :
    evalGem vars idxs (mkIndexedFree a r) = evalIdx vars a (idxs r) := by
  unfold mkIndexedFree
  split_ifs with h
  · cases a <;> simp_all [Gem.isZero, evalGem, evalIdx]
  · rfl

lemma evalIdx_mkLitVec (vars : String → ℕ → ℚ) (tbl : Row) (i : ℕ) :
    evalIdx vars (mkLitVec tbl) i = tbl.getD i 0 := by
  unfold mkLitVec
  split_ifs with h
  · show (0 : ℚ) = tbl.getD i 0
    rcases h' : tbl[i]? with _ | x
    · rw [List.getD_eq_getElem?_getD, h']
      rfl
    · have hx : x ∈ tbl := List.getElem?_mem h'
      have hx0 : x = 0 := of_decide_eq_true (List.all_eq_true.mp h x hx)
      rw [List.getD_eq_getElem?_getD, h', hx0]
      rfl
  · rfl

lemma evalGem_foldl_mkSum (vars : String → ℕ → ℚ) (idxs : ℕ → ℕ) (g : ℕ → Gem) :
    ∀ (l : List ℕ) (acc : Gem),
      evalGem vars idxs (l.foldl (fun a i => mkSum a (g i)) acc)
        = evalGem vars idxs acc + (l.map fun i => evalGem vars idxs (g i)).sum := by
  intro l
  induction l with
  | nil => intro acc; simp
  | cons a t ih =>
    intro acc
    rw [List.foldl_cons, ih, evalGem_mkSum, List.map_cons, List.sum_cons]
    ring

lemma sum_map_filter_of_zero (p : ℕ → Bool) (f : ℕ → ℚ)
    (hz : ∀ i, p i = false → f i = 0) :
    ∀ l : List ℕ, ((l.filter p).map f).sum = (l.map f).sum := by
  intro l
  induction l with
  | nil => rfl
  | cons a t ih =>
    by_cases hp : p a = true
    · rw [List.filter_cons_of_pos hp, List.map_cons, List.map_cons, List.sum_cons,
        List.sum_cons, ih]
    · have hpa : p a = false := by revert hp; cases p a <;> simp
      rw [List.filter_cons_of_neg hp, List.map_cons, List.sum_cons, hz a hpa, zero_add, ih]

/-- C7: for every constant 1-D table with at most two nonzero entries and
arbitrary coefficient values, the expanded finite-sum translation emitted
by the Coefficient rule and the general index-sum contraction over all
basis-function indices evaluate to identical results. -/
theorem sparse_contraction_equivalence (tbl : Row) (w : String)
    (vars : String → ℕ → ℚ) (idxs : ℕ → ℕ) (r : ℕ)
    (hcnt : countNonzero tbl ≤ 2) :
    evalGem vars idxs (sparseExpansion tbl (Gem.Variable w [tbl.length]))
      = evalGem vars idxs (generalIndexSum tbl (Gem.Variable w [tbl.length]) r) := by
  have hitem : ∀ i, evalGem vars idxs (mkProduct (mkIndexed (mkLitVec tbl) i)
      (mkIndexed (Gem.Variable w [tbl.length]) i)) = tbl.getD i 0 * vars w i := by
    intro i
    rw [evalGem_mkProduct, evalGem_mkIndexed, evalGem_mkIndexed, evalIdx_mkLitVec]
    rfl
  have hlhs : evalGem vars idxs (sparseExpansion tbl (Gem.Variable w [tbl.length]))
      = ((List.range tbl.length).map fun i => tbl.getD i 0 * vars w i).sum := by
    unfold sparseExpansion
    rw [evalGem_foldl_mkSum vars idxs
      (fun i => mkProduct (mkIndexed (mkLitVec tbl) i)
        (mkIndexed (Gem.Variable w [tbl.length]) i)),
      show evalGem vars idxs (Gem.Zero []) = 0 from rfl, zero_add]
    have hmap : (nonzeroIndices tbl).map (fun i => evalGem vars idxs (mkProduct
        (mkIndexed (mkLitVec tbl) i) (mkIndexed (Gem.Variable w [tbl.length]) i)))
        = (nonzeroIndices tbl).map fun i => tbl.getD i 0 * vars w i :=
      List.map_congr_left fun i _ => hitem i
    rw [hmap]
    unfold nonzeroIndices
    exact sum_map_filter_of_zero _ _ (fun i hi => by
      have hzero : tbl.getD i 0 = 0 := not_not.mp (by simpa using of_decide_eq_false hi)
      show tbl.getD i 0 * vars w i = 0
      rw [hzero, zero_mul]) (List.range tbl.length)
  have hrhs : evalGem vars idxs (generalIndexSum tbl (Gem.Variable w [tbl.length]) r)
      = ∑ j ∈ Finset.range tbl.length, tbl.getD j 0 * vars w j := by
    unfold generalIndexSum
    rw [evalGem_mkIndexSum]
    refine Finset.sum_congr rfl fun j _ => ?_
    rw [evalGem_mkProduct, evalGem_mkIndexedFree, evalGem_mkIndexedFree,
      Function.update_same, evalIdx_mkLitVec]
    rfl
  rw [hlhs, hrhs]
  rfl

/-- C7 witness: on the two-nonzero row [3, 0, 5] with concrete coefficient
values, the sparse expansion and the general index sum agree. -/
theorem sparse_contraction_equivalence_witness :
    evalGem (fun _ j => (j : ℚ) + 1) (fun _ => 0)
        (sparseExpansion [3, 0, 5] (Gem.Variable "w" [3]))
      = evalGem (fun _ j => (j : ℚ) + 1) (fun _ => 0)
        (generalIndexSum [3, 0, 5] (Gem.Variable "w" [3]) 4) :=
  sparse_contraction_equivalence [3, 0, 5] "w" (fun _ j => (j : ℚ) + 1) (fun _ => 0) 4
    (by decide)

/-- C8: every integral type outside the supported set fails with the
NotImplementedError raised by TabulationManager construction, and process
propagates exactly that construction failure — for arbitrary collaborators,
before any tabulation is stored and before any terminal is translated. -/
theorem unsupported_integral_type_fails {E G : Type} (integral_type : String)
    (h : integral_type ∉ supportedIntegralTypes) (cell : FiatCell)
    (argument_indices : List ℕ) (integrand : E) (simplify_abs : E → E)
    (collect_max_derivs : E → List (Element × ℕ))
    (pick_restriction : List String → E → E)
    (translate_dag : TabulationManager → E → G) :
    TabulationManager.init integral_type cell
      = .error ("integral type " ++ integral_type ++ " not supported")
    ∧ process integral_type cell argument_indices integrand simplify_abs
        collect_max_derivs pick_restriction translate_dag
      = .error ("integral type " ++ integral_type ++ " not supported") := by
  have hinit : TabulationManager.init integral_type cell
      = .error ("integral type " ++ integral_type ++ " not supported") := by
    unfold TabulationManager.init
    split_ifs with h1 h2 h3 h4
    · subst h1
      simp [supportedIntegralTypes] at h
    · simp only [List.mem_cons, List.mem_singleton, List.not_mem_nil, or_false] at h2
      rcases h2 with rfl | rfl <;> simp [supportedIntegralTypes] at h
    · simp only [List.mem_cons, List.mem_singleton, List.not_mem_nil, or_false] at h3
      rcases h3 with rfl | rfl | rfl <;> simp [supportedIntegralTypes] at h
    · simp only [List.mem_cons, List.mem_singleton, List.not_mem_nil, or_false] at h4
      rcases h4 with rfl | rfl <;> simp [supportedIntegralTypes] at h
    · rfl
  have hsetup : processSetup integral_type cell
      (collect_max_derivs (simplify_abs integrand))
      = .error ("integral type " ++ integral_type ++ " not supported") := by
    unfold processSetup
    rw [hinit]
  refine ⟨hinit, ?_⟩
  unfold process
  rw [hsetup]

/-- C8 witness: the integral type "point" is rejected at construction and
process fails with the same unsupported-feature error. -/
theorem unsupported_integral_type_fails_witness :
    TabulationManager.init "point" cCell
      = .error ("integral type " ++ "point" ++ " not supported")
    ∧ process "point" cCell [] (0 : ℕ) id (fun _ => []) (fun _ e => e)
        (fun _ e => e : TabulationManager → ℕ → ℕ)
      = .error ("integral type " ++ "point" ++ " not supported") :=
  unsupported_integral_type_fails "point" (by decide) cCell [] 0 id (fun _ => [])
    (fun _ e => e) (fun _ e => e)

/-- C1: on the successful outputs of process: for an interior-facet
integral type the output is the translation of one restriction-substituted
integrand per element of the Cartesian power of the plus and minus labels
over the argument slots, in itertools.product order — 2 to the k outputs,
the combination list being duplicate-free and containing every combination
exactly once; for any other integral type the output is the single
translated unrestricted integrand. -/
theorem process_restriction_combinations {E G : Type} (integral_type : String)
    (cell : FiatCell) (argument_indices : List ℕ) (integrand : E)
    (simplify_abs : E → E) (collect_max_derivs : E → List (Element × ℕ))
    (pick_restriction : List String → E → E) (translate_dag : TabulationManager → E → G)
    (out : List G)
    (h : process integral_type cell argument_indices integrand simplify_abs
      collect_max_derivs pick_restriction translate_dag = .ok out) :
    (pyStartswith integral_type "interior_facet" = true →
      out.length = 2 ^ argument_indices.length
      ∧ (prodRep ["+", "-"] argument_indices.length).length = 2 ^ argument_indices.length
      ∧ (prodRep ["+", "-"] argument_indices.length).Nodup
      ∧ (∀ rs : List String, rs ∈ prodRep ["+", "-"] argument_indices.length ↔
          rs.length = argument_indices.length ∧ ∀ x ∈ rs, x = "+" ∨ x = "-")
      ∧ ∃ tm, processSetup integral_type cell (collect_max_derivs (simplify_abs integrand))
            = .ok tm
          ∧ out = (prodRep ["+", "-"] argument_indices.length).map
              fun rs => translate_dag tm (pick_restriction rs (simplify_abs integrand)))
    ∧ (pyStartswith integral_type "interior_facet" = false →
      ∃ tm, processSetup integral_type cell (collect_max_derivs (simplify_abs integrand))
          = .ok tm
        ∧ out = [translate_dag tm (simplify_abs integrand)]) := by
  cases hsetup : processSetup integral_type cell
      (collect_max_derivs (simplify_abs integrand)) with
  | error e =>
    unfold process at h
    rw [hsetup] at h
    cases h
  | ok tm =>
    unfold process at h
    rw [hsetup] at h
    injection h with h
    constructor
    · intro hstart
      rw [if_pos hstart, List.map_map] at h
      refine ⟨?_, ?_, prodRep_nodup _ (by decide) _, ?_, tm, rfl, ?_⟩
      · rw [← h, List.length_map, prodRep_length]
        rfl
      · rw [prodRep_length]
        rfl
      · intro rs
        rw [prodRep_mem]
        simp
      · rw [← h]
        rfl
    · intro hstart
      rw [if_neg (by rw [hstart]; exact Bool.false_ne_true)] at h
      exact ⟨tm, rfl, by rw [← h]; rfl⟩

/-- C1 witness: an interior-facet integral with one argument slot produces
exactly two translated output expressions. -/
theorem process_restriction_combinations_witness :
    process "interior_facet" cCell [0] (0 : ℕ) id (fun _ => []) (fun _ e => e)
      (fun _ e => e : TabulationManager → ℕ → ℕ) = .ok [0, 0]
    ∧ ([0, 0] : List ℕ).length = 2 ^ ([0] : List ℕ).length :=
  ⟨rfl, ((process_restriction_combinations "interior_facet" cCell [0] (0 : ℕ) id
    (fun _ => []) (fun _ e => e) (fun _ e => e) [0, 0] rfl).1 rfl).1⟩

end Tsfc
